import Mathlib

/-!
Verification of the `ot24net/errors` structured-error package.

The development shallowly embeds the package's data model and operations:

* `ErrData`, `errImpl` records live in an explicit `Heap` (a list of records);
  a Go `*errImpl` pointer is an index into the heap, so reference identity,
  in-place mutation and aliasing are observable.
* A Go `error` interface value is `Option GoErr`: `none` is the nil interface,
  `GoErr.impl a` is a non-nil `*errImpl` pointing at heap cell `a`, and
  `GoErr.foreign id msg` is any other error value, identified by `id`, whose
  `Error()` method returns `msg`.
* The `encoding/json` marshalling used by `Error()` and `parse` is modelled by
  an executable JSON renderer and parser over the value universe `JVal`
  (null, booleans, integer numbers, strings, and arrays).  JSON objects nested
  inside `reason` payloads, non-integer numbers, case-insensitive field-name
  matching and surrogate-pair decoding are outside the modelled universe; on
  the modelled universe the codec agrees with `encoding/json` (field order,
  HTML escaping of `<`, `>`, `&`, `\u00XX` escapes for control characters).
* Functions that in Go would dereference a nil `*errImpl` return an explicit
  `nilDeref` result instead of a value.
* `runtime.Caller` / `runtime.FuncForPC` results are modelled by a
  `CallerEnv` record supplied as input to `caller`.
-/

namespace Errs

/-- JSON value universe used for `interface{}` reason payloads and for the
decoded form of JSON texts.  Numbers are modelled as integers. -/
inductive JVal where
  | jnull : JVal
  | jbool : Bool → JVal
  | jnum : Int → JVal
  | jstr : String → JVal
  | jarr : List JVal → JVal

/-- Model of the Go struct `ErrData` from src/errors.go: `Code string`,
`Reason [][]interface{}`, `Where []string` (JSON tags `code`, `reason`,
`where`). -/
structure ErrData where
  code : String
  reason : List (List JVal)
  where_ : List String

/-- Zero value of `ErrData`, as produced by `data := ErrData{}` before
`json.Unmarshal` populates it. -/
def zeroErrData : ErrData := ⟨"", [], []⟩

/-- The heap of allocated `errImpl` records; a Go `*errImpl` pointer is an
index into this list. -/
abbrev Heap : Type := List ErrData

/-- Allocation (`&errImpl{...}`): appends a record, returning the new heap and
the fresh address. -/
def alloc (h : Heap) (d : ErrData) : Heap × Nat := (h ++ [d], h.length)

/-- Dereference of a (valid) `*errImpl` pointer: the record stored at address
`a`. -/
def getRec (h : Heap) (a : Nat) : ErrData := (h[a]?).getD zeroErrData

/-- Store through a `*errImpl` pointer. -/
def setRec (h : Heap) (a : Nat) (d : ErrData) : Heap := List.set h a d

/-- A non-nil Go `error` interface value: either a `*errImpl` record of this
package, or a foreign error with identity `id` and message text `msg`. -/
inductive GoErr where
  | impl : Nat → GoErr
  | foreign : Nat → String → GoErr
deriving DecidableEq

/-- A Go `error` interface value; `none` is the nil interface. -/
abbrev ErrVal : Type := Option GoErr

/- ---------------------------------------------------------------------
JSON rendering, modelling `json.Marshal` on the `JVal` universe.
--------------------------------------------------------------------- -/

/-- Lowercase hexadecimal digit, as emitted by `encoding/json` in `\u00xx`
escapes. -/
def hexDigitChar (n : Nat) : Char :=
  if n < 10 then Char.ofNat (48 + n % 16) else Char.ofNat (87 + n % 16)

/-- Escape of one character inside a JSON string, following
`encoding/json`: `\"`, `\\`, `\n`, `\r`, `\t`, HTML-escapes for `<` `>` `&`,
`\u00xx` for other control characters, ` `/` `. -/
def escapeChar (c : Char) : List Char :=
  if c = '"' then ['\\', '"']
  else if c = '\\' then ['\\', '\\']
  else if c = '\n' then ['\\', 'n']
  else if c = '\r' then ['\\', 'r']
  else if c = '\t' then ['\\', 't']
  else if c = '<' then ['\\', 'u', '0', '0', '3', 'c']
  else if c = '>' then ['\\', 'u', '0', '0', '3', 'e']
  else if c = '&' then ['\\', 'u', '0', '0', '2', '6']
  else if c.toNat < 32 then
    ['\\', 'u', '0', '0', hexDigitChar (c.toNat / 16), hexDigitChar (c.toNat % 16)]
  else if c.toNat = 0x2028 then ['\\', 'u', '2', '0', '2', '8']
  else if c.toNat = 0x2029 then ['\\', 'u', '2', '0', '2', '9']
  else [c]

/-- JSON rendering of a string, quotes included. -/
def renderString (s : String) : List Char :=
  '"' :: (s.data.flatMap escapeChar) ++ ['"']

/-- Decimal digit character. -/
def digitChar10 (n : Nat) : Char := Char.ofNat (48 + n % 10)

/-- Fuel-indexed digit loop: prepends the decimal digits of `n` (most
significant first) to `acc`; the fuel only needs to exceed the digit count. -/
def natDigitsAux : Nat → Nat → List Char → List Char
  | 0, _, acc => acc
  | fuel + 1, n, acc =>
    if n < 10 then digitChar10 n :: acc
    else natDigitsAux fuel (n / 10) (digitChar10 (n % 10) :: acc)

/-- Decimal digits of a natural number, most significant first. -/
def natDigits (n : Nat) : List Char := natDigitsAux (n + 1) n []

/-- JSON rendering of an integer number. -/
def renderInt (n : Int) : List Char :=
  if n < 0 then '-' :: natDigits n.natAbs else natDigits n.natAbs

mutual

/-- JSON rendering of a `JVal`. -/
def renderV : JVal → List Char
  | .jnull => ['n', 'u', 'l', 'l']
  | .jbool true => ['t', 'r', 'u', 'e']
  | .jbool false => ['f', 'a', 'l', 's', 'e']
  | .jnum n => renderInt n
  | .jstr s => renderString s
  | .jarr xs => '[' :: renderElems xs ++ [']']

/-- Comma-separated rendering of array elements. -/
def renderElems : List JVal → List Char
  | [] => []
  | x :: xs => renderV x ++ renderElemsTail xs

/-- Rendering of the elements after the first, each preceded by a comma. -/
def renderElemsTail : List JVal → List Char
  | [] => []
  | x :: xs => ',' :: renderV x ++ renderElemsTail xs

end

/-- Model of `json.Marshal(e.data)`: the fields in struct order with their
JSON tags, no whitespace.  (On the modelled universe the encoder cannot fail,
so the `fmt.Sprintf` fallback in `errImpl.Error` is unreachable.) -/
def marshalErrData (d : ErrData) : List Char :=
  '{' :: ("\"code\":".data ++ renderV (.jstr d.code)
    ++ ",\"reason\":".data ++ renderV (.jarr (d.reason.map .jarr))
    ++ ",\"where\":".data ++ renderV (.jarr (d.where_.map .jstr))) ++ ['}']

/-- Model of `(e *errImpl) Error()`: the JSON text of the record's data. -/
def errorText (d : ErrData) : String := String.mk (marshalErrData d)

/- ---------------------------------------------------------------------
JSON parsing, modelling `json.Unmarshal` on the `JVal` universe.
--------------------------------------------------------------------- -/

/-- JSON whitespace. -/
def isWsChar (c : Char) : Bool :=
  c = ' ' || c = '\t' || c = '\n' || c = '\r'

/-- Skip leading JSON whitespace. -/
def skipWs : List Char → List Char
  | [] => []
  | c :: rest => if isWsChar c then skipWs rest else c :: rest

/-- Value of a hexadecimal digit character. -/
def hexVal (c : Char) : Option Nat :=
  if '0' ≤ c ∧ c ≤ '9' then some (c.toNat - 48)
  else if 'a' ≤ c ∧ c ≤ 'f' then some (c.toNat - 87)
  else if 'A' ≤ c ∧ c ≤ 'F' then some (c.toNat - 55)
  else none

/-- Decode of a `\uXXXX` code point; invalid scalar values (the surrogate
range) decode to U+FFFD as in `encoding/json`. -/
def charOfCode (n : Nat) : Char :=
  if n < 0xd800 ∨ (0xe000 ≤ n ∧ n < 0x110000) then Char.ofNat n
  else Char.ofNat 0xfffd

/-- Body of a JSON string after the opening quote: unescapes up to and
including the closing quote, returning the decoded characters and the rest of
the input.  Raw control characters are invalid, as in `encoding/json`. -/
def parseStringBody : List Char → Option (List Char × List Char)
  | [] => none
  | c :: rest =>
    if c = '"' then some ([], rest)
    else if c = '\\' then
      match rest with
      | [] => none
      | e :: r0 =>
        if e = '"' then (parseStringBody r0).map (fun p => ('"' :: p.1, p.2))
        else if e = '\\' then (parseStringBody r0).map (fun p => ('\\' :: p.1, p.2))
        else if e = '/' then (parseStringBody r0).map (fun p => ('/' :: p.1, p.2))
        else if e = 'n' then (parseStringBody r0).map (fun p => ('\n' :: p.1, p.2))
        else if e = 'r' then (parseStringBody r0).map (fun p => ('\r' :: p.1, p.2))
        else if e = 't' then (parseStringBody r0).map (fun p => ('\t' :: p.1, p.2))
        else if e = 'b' then
          (parseStringBody r0).map (fun p => (Char.ofNat 8 :: p.1, p.2))
        else if e = 'f' then
          (parseStringBody r0).map (fun p => (Char.ofNat 12 :: p.1, p.2))
        else if e = 'u' then
          match r0 with
          | h1 :: h2 :: h3 :: h4 :: r =>
            match hexVal h1, hexVal h2, hexVal h3, hexVal h4 with
            | some a, some b, some c, some d =>
              (parseStringBody r).map
                (fun p => (charOfCode (((a * 16 + b) * 16 + c) * 16 + d) :: p.1, p.2))
            | _, _, _, _ => none
          | _ => none
        else none
    else if c.toNat < 32 then none
    else (parseStringBody rest).map (fun p => (c :: p.1, p.2))

/-- Decimal digit test on the code point, byte-for-byte what the scanner in
`encoding/json` checks. -/
def isDigitCh (c : Char) : Bool :=
  48 ≤ c.toNat && c.toNat ≤ 57

/-- Greedy decimal-digit scan, accumulating the value. -/
def parseDigits : List Char → Nat → Nat × List Char
  | [], acc => (acc, [])
  | c :: rest, acc =>
    if isDigitCh c then parseDigits rest (acc * 10 + (c.toNat - 48))
    else (acc, c :: rest)

/-- True when a character would continue a number token (digit, fraction or
exponent); the modelled parser only accepts integer numbers. -/
def numCont (c : Char) : Bool :=
  isDigitCh c || c = '.' || c = 'e' || c = 'E'

/-- Unsigned part of a JSON number.  Leading zeros are rejected as in JSON;
a fraction or exponent makes the number non-integral and is rejected by the
model. -/
def parseNumTail : List Char → Option (Nat × List Char)
  | [] => none
  | c :: rest =>
    if c = '0' then
      match rest with
      | [] => some (0, [])
      | d :: _ => if numCont d then none else some (0, rest)
    else if isDigitCh c then
      match parseDigits (c :: rest) 0 with
      | (n, []) => some (n, [])
      | (n, d :: r) => if numCont d then none else some (n, d :: r)
    else none

/-- A JSON number (integer subset). -/
def parseNumber : List Char → Option (Int × List Char)
  | [] => none
  | c :: rest =>
    if c = '-' then (parseNumTail rest).map (fun p => (-(p.1 : Int), p.2))
    else (parseNumTail (c :: rest)).map (fun p => ((p.1 : Int), p.2))

mutual

/-- Fuel-indexed JSON value parser. -/
def parseVal : Nat → List Char → Option (JVal × List Char)
  | 0, _ => none
  | fuel + 1, l =>
    match skipWs l with
    | [] => none
    | c :: rest =>
      if c = '"' then
        (parseStringBody rest).map (fun p => (JVal.jstr (String.mk p.1), p.2))
      else if c = '[' then
        match skipWs rest with
        | [] => none
        | c2 :: r2 =>
          if c2 = ']' then some (.jarr [], r2)
          else (parseElems fuel (c2 :: r2)).map (fun p => (JVal.jarr p.1, p.2))
      else if c = 't' then
        match rest with
        | 'r' :: 'u' :: 'e' :: r => some (.jbool true, r)
        | _ => none
      else if c = 'f' then
        match rest with
        | 'a' :: 'l' :: 's' :: 'e' :: r => some (.jbool false, r)
        | _ => none
      else if c = 'n' then
        match rest with
        | 'u' :: 'l' :: 'l' :: r => some (.jnull, r)
        | _ => none
      else if c = '-' ∨ isDigitCh c then
        (parseNumber (c :: rest)).map (fun p => (JVal.jnum p.1, p.2))
      else none

/-- Fuel-indexed parser for the elements of a non-empty JSON array, up to and
including the closing bracket. -/
def parseElems : Nat → List Char → Option (List JVal × List Char)
  | 0, _ => none
  | fuel + 1, l =>
    match parseVal fuel l with
    | none => none
    | some (v, r) =>
      match skipWs r with
      | [] => none
      | c :: r2 =>
        if c = ',' then (parseElems fuel r2).map (fun p => (v :: p.1, p.2))
        else if c = ']' then some ([v], r2)
        else none

end

/-- Fuel-indexed parser for the members of a non-empty JSON object, up to and
including the closing brace, as an association list in input order. -/
def parseFields : Nat → List Char → Option (List (String × JVal) × List Char)
  | 0, _ => none
  | fuel + 1, l =>
    match skipWs l with
    | [] => none
    | c :: rest =>
      if c = '"' then
        match parseStringBody rest with
        | none => none
        | some (key, r1) =>
          match skipWs r1 with
          | [] => none
          | c2 :: r2 =>
            if c2 = ':' then
              match parseVal fuel r2 with
              | none => none
              | some (v, r3) =>
                match skipWs r3 with
                | [] => none
                | c3 :: r4 =>
                  if c3 = ',' then
                    (parseFields fuel r4).map
                      (fun p => ((String.mk key, v) :: p.1, p.2))
                  else if c3 = '}' then some ([(String.mk key, v)], r4)
                  else none
            else none
      else none

/-- Decoding of the `code` field: a JSON string; `null` is a no-op, other
shapes are a type error, as in `encoding/json`. -/
def setCode (cur : ErrData) : JVal → Option ErrData
  | .jstr s => some { cur with code := s }
  | .jnull => some cur
  | _ => none

/-- Decoding of one `[]interface{}` reason entry. -/
def asReasonEntry : JVal → Option (List JVal)
  | .jarr ys => some ys
  | .jnull => some []
  | _ => none

/-- Element-wise decoding of a JSON array; the first failing element aborts,
as in `encoding/json`. -/
def decodeList {α : Type} (f : JVal → Option α) : List JVal → Option (List α)
  | [] => some []
  | x :: xs =>
    match f x, decodeList f xs with
    | some y, some ys => some (y :: ys)
    | _, _ => none

/-- Decoding of the `reason` field (`[][]interface{}`). -/
def setReason (cur : ErrData) : JVal → Option ErrData
  | .jarr xs => (decodeList asReasonEntry xs).map (fun r => { cur with reason := r })
  | .jnull => some cur
  | _ => none

/-- Decoding of one `where` entry (a string; `null` leaves the zero value). -/
def asWhereEntry : JVal → Option String
  | .jstr s => some s
  | .jnull => some ""
  | _ => none

/-- Decoding of the `where` field (`[]string`). -/
def setWhere (cur : ErrData) : JVal → Option ErrData
  | .jarr xs => (decodeList asWhereEntry xs).map (fun w => { cur with where_ := w })
  | .jnull => some cur
  | _ => none

/-- Applying one decoded object member to the struct: the three tagged fields
are populated, unknown members are ignored, later duplicates overwrite. -/
def applyField (cur : ErrData) (kv : String × JVal) : Option ErrData :=
  if kv.1 = "code" then setCode cur kv.2
  else if kv.1 = "reason" then setReason cur kv.2
  else if kv.1 = "where" then setWhere cur kv.2
  else some cur

/-- Sequential application of the decoded members, starting from the zero
value; a field of the wrong shape aborts the decode. -/
def decodeFieldsAux : ErrData → List (String × JVal) → Option ErrData
  | cur, [] => some cur
  | cur, kv :: fs =>
    match applyField cur kv with
    | none => none
    | some cur2 => decodeFieldsAux cur2 fs

/-- Decoding of all object members into the struct. -/
def decodeFields (fs : List (String × JVal)) : Option ErrData :=
  decodeFieldsAux zeroErrData fs

/-- Model of `json.Unmarshal([]byte(src), &data)` for `data : ErrData`:
parse one JSON object, tolerate surrounding whitespace, reject trailing
input, and populate the struct fields from the members. -/
def jsonUnmarshalErrData (src : String) : Option ErrData :=
  let cs := src.data
  match skipWs cs with
  | [] => none
  | c :: rest =>
    if c = '{' then
      match skipWs rest with
      | [] => none
      | c2 :: r2 =>
        if c2 = '}' then (if skipWs r2 = [] then some zeroErrData else none)
        else
          match parseFields (2 * cs.length + 4) (c2 :: r2) with
          | none => none
          | some p => if skipWs p.2 = [] then decodeFields p.1 else none
    else none

/- ---------------------------------------------------------------------
The package operations (src/errors.go).
--------------------------------------------------------------------- -/

/-- Data of the record built by `New(code)` (src/errors.go `New`):
`Code: code`, `Reason: [][]interface{}{{"new"}}`, `Where: []string{caller(2)}`
where `site` is the formatted call site captured by `caller(2)`. -/
def mkNewData (site code : String) : ErrData :=
  ⟨code, [[JVal.jstr "new"]], [site]⟩

/-- Model of `New(code)` (src/errors.go lines 100-108): allocates the record
and returns its address. -/
def New (h : Heap) (site code : String) : Heap × Nat :=
  alloc h (mkNewData site code)

/-- Data-level model of `parse(src)` (src/errors.go lines 166-179): `none` is
the nil `*errImpl` returned for the empty string; otherwise the data of the
record `parse` allocates.  `site` is the call site the `New` fallback would
capture. -/
def parseData (site src : String) : Option ErrData :=
  match src.data with
  | [] => none
  | c :: _ =>
    if c ≠ '{' then some (mkNewData site src)
    else
      match jsonUnmarshalErrData src with
      | none => some (mkNewData site src)
      | some d => some d

/-- Heap-level model of `parse(src)`: allocates the parsed record, returning
its address (`none` = nil `*errImpl`). -/
def parseH (h : Heap) (site src : String) : Heap × Option Nat :=
  match parseData site src with
  | none => (h, none)
  | some d => let p := alloc h d; (p.1, some p.2)

/-- Model of `Parse(src)` (src/errors.go lines 136-141). -/
def Parse (h : Heap) (site src : String) : Heap × Option Nat :=
  if src.length = 0 then (h, none) else parseH h site src

/-- Message text of a non-nil error value: `Error()` of a record is its JSON
text, a foreign error reports its own message. -/
def msgOf (h : Heap) : GoErr → String
  | .impl a => errorText (getRec h a)
  | .foreign _ m => m

/-- Result of `ParseErr`: `none` is the nil interface (nil input); `some p`
is a returned `*errImpl` pointer, where `p = none` is the typed-nil pointer
`parse` produces for an empty message. -/
def ParseErr (h : Heap) (site : String) (e : ErrVal) : Heap × Option (Option Nat) :=
  match e with
  | none => (h, none)
  | some (.impl a) => (h, some (some a))
  | some (.foreign _ msg) =>
    let p := parseH h site msg
    (p.1, some p.2)

/-- In-place append of one reason entry and one location entry to the record
at `a`, as done by both forms of `As`. -/
def appendRL (h : Heap) (a : Nat) (items : List JVal) (site : String) : Heap :=
  let d := getRec h a
  setRec h a { d with reason := d.reason ++ [items], where_ := d.where_ ++ [site] }

/-- Model of the method `(e *errImpl) As(reason...)` (src/errors.go lines
231-235): mutates the receiver in place and returns the same pointer. -/
def methodAs (h : Heap) (a : Nat) (items : List JVal) (site : String) : Heap × Nat :=
  (appendRL h a items site, a)

/-- Outcome of the free function `As`:  `retNil` models the `return nil`
branch, `ret a` a returned record pointer, and `nilDeref` the nil-pointer
dereference that occurs when `ParseErr` produces a typed-nil `*errImpl`. -/
inductive AsResult where
  | retNil : AsResult
  | nilDeref : AsResult
  | ret : Nat → AsResult
deriving DecidableEq

/-- Model of the free function `As(err, reason...)` (src/errors.go lines
155-164): nil in, nil out; otherwise `ParseErr` then an in-place append; if
`ParseErr` yields a typed-nil pointer the append dereferences nil. -/
def As (h : Heap) (site : String) (e : ErrVal) (items : List JVal) : Heap × AsResult :=
  match e with
  | none => (h, .retNil)
  | some ge =>
    let p := ParseErr h site (some ge)
    match p with
    | (h1, some (some a)) => (appendRL h1 a items site, .ret a)
    | (h1, _) => (h1, .nilDeref)

/-- Outcome of `errEqual`: a boolean result, or the nil-pointer dereference
reached through `parse(msg).Code()` when a message parses to a typed-nil
record. -/
inductive EqResult where
  | res : Bool → EqResult
  | nilDeref : EqResult
deriving DecidableEq

/-- Model of `errEqual(err1, err2)` (src/errors.go lines 55-80): interface
identity, nil checks, direct code comparison for two records, then message
comparison and parsed-code comparison for foreign values.  `parse(m).Code()`
on an empty message dereferences a nil pointer (`nilDeref`). -/
def errEqual (h : Heap) (site : String) (e1 e2 : ErrVal) : EqResult :=
  if e1 = e2 then .res true
  else
    match e1, e2 with
    | none, _ => .res false
    | _, none => .res false
    | some g1, some g2 =>
      match g1, g2 with
      | .impl a1, .impl a2 => .res ((getRec h a1).code == (getRec h a2).code)
      | _, _ =>
        let m1 := msgOf h g1
        let m2 := msgOf h g2
        if m1 = m2 then .res true
        else
          match parseData site m1, parseData site m2 with
          | some d1, some d2 => .res (d1.code == d2.code)
          | _, _ => .nilDeref

/-- Model of `Equal(err1, err2)` (src/errors.go lines 49-51). -/
def Equal (h : Heap) (site : String) (e1 e2 : ErrVal) : EqResult :=
  errEqual h site e1 e2

/- ---------------------------------------------------------------------
Call-site capture (src/errors.go `caller`, lines 182-209).
--------------------------------------------------------------------- -/

/-- The runtime facts `caller` consults: `ok`, `file` and `line` as returned
by `runtime.Caller(depth)`, whether `runtime.FuncForPC` found a function, and
that function's name.  `runtime.(*Func).Name()` returns `""` on a nil
receiver, which `funcName` below reproduces. -/
structure CallerEnv where
  ok : Bool
  file : String
  line : Nat
  funcKnown : Bool
  funcName : String

/-- Model of `strings.Split(s, "/")` on characters: never returns an empty
list. -/
def splitSlash (l : List Char) : List (List Char) :=
  match l with
  | [] => [[]]
  | c :: rest =>
    let r := splitSlash rest
    if c = '/' then [] :: r
    else
      match r with
      | [] => [[c]]
      | f :: fs => (c :: f) :: fs

/-- Model of `caller(depth)` (src/errors.go lines 182-209).  The sentinel
strings assigned on the `!ok` and `me == nil` paths are dead stores: the
function falls through and overwrites `at` with the formatted call site.  The
two `len(fields) < 1` guards can never fire because `strings.Split` always
returns at least one element. -/
def caller (env : CallerEnv) : String :=
  let at1 : String := ""
  let at2 := if env.ok = false then "domain of caller is unknown" else at1
  let at3 := if env.funcKnown = false then "domain of call is unnamed" else at2
  let fileFields := splitSlash env.file.data
  if fileFields.length < 1 then "domain of file is unnamed"
  else
    let name := if env.funcKnown then env.funcName else ""
    let funcFields := splitSlash name.data
    if fileFields.length < 1 then "domain of func is unnamed"
    else
      let fileName := String.mk (fileFields.getLastD [])
      let funcName := String.mk (funcFields.getLastD [])
      let _ := at3
      funcName ++ "(" ++ fileName ++ ":" ++ toString env.line ++ ")"

/- ---------------------------------------------------------------------
Supporting lemmas: characters and the heap.
--------------------------------------------------------------------- -/

theorem toNat_ofNat {n : Nat} (h : n.isValidChar) : (Char.ofNat n).toNat = n := by
  simp only [Char.ofNat, h, dite_true, Char.ofNatAux, Char.toNat]
  rfl

theorem char_valid_toNat (c : Char) : c.toNat.isValidChar := by
  have h := c.valid
  rcases h with h | h
  · exact Or.inl h
  · exact Or.inr ⟨h.1, h.2⟩

theorem charOfCode_toNat (c : Char) : charOfCode c.toNat = c := by
  have hv := char_valid_toNat c
  have hcond : c.toNat < 0xd800 ∨ (0xe000 ≤ c.toNat ∧ c.toNat < 0x110000) := by
    rcases hv with h | h
    · exact Or.inl h
    · exact Or.inr ⟨by omega, h.2⟩
  rw [charOfCode, if_pos hcond]
  exact Char.ofNat_toNat c

theorem ne_of_toNat_ne {c d : Char} (h : c.toNat ≠ d.toNat) : c ≠ d :=
  fun e => h (by rw [e])

theorem getRec_alloc (h : Heap) (d : ErrData) :
    getRec (alloc h d).1 (alloc h d).2 = d := by
  simp [alloc, getRec, List.getElem?_append_right, Nat.le_refl]

theorem getRec_append_lt (h : Heap) (d : ErrData) {a : Nat} (ha : a < h.length) :
    getRec (h ++ [d]) a = getRec h a := by
  simp [getRec, List.getElem?_append_left ha]

theorem skipWs_cons {c : Char} (hc : isWsChar c = false) (l : List Char) :
    skipWs (c :: l) = c :: l := by
  simp [skipWs, hc]

/- ---------------------------------------------------------------------
Supporting lemmas: decimal digits and number round-trip.
--------------------------------------------------------------------- -/

theorem digitChar10_toNat (m : Nat) : (digitChar10 m).toNat = 48 + m % 10 := by
  have hm : m % 10 < 10 := Nat.mod_lt _ (by omega)
  exact toNat_ofNat (Or.inl (by omega))

theorem isDigitCh_digitChar10 (m : Nat) : isDigitCh (digitChar10 m) = true := by
  have hm : m % 10 < 10 := Nat.mod_lt _ (by omega)
  simp [isDigitCh, digitChar10_toNat]
  omega

theorem digit_toNat_bounds {c : Char} (h : isDigitCh c = true) :
    48 ≤ c.toNat ∧ c.toNat ≤ 57 := by
  simpa [isDigitCh] using h

theorem ne_of_digit {c : Char} (h : isDigitCh c = true) {d : Char}
    (hd : d.toNat < 48 ∨ 57 < d.toNat) : c ≠ d := by
  have hb := digit_toNat_bounds h
  exact ne_of_toNat_ne (by omega)

theorem isWsChar_of_digit {c : Char} (h : isDigitCh c = true) :
    isWsChar c = false := by
  have h32 : c ≠ ' ' := ne_of_digit h (by decide)
  have h9 : c ≠ '\t' := ne_of_digit h (by decide)
  have h10 : c ≠ '\n' := ne_of_digit h (by decide)
  have h13 : c ≠ '\r' := ne_of_digit h (by decide)
  simp [isWsChar, h32, h9, h10, h13]

theorem natDigitsAux_acc (fuel : Nat) : ∀ (n : Nat) (ds : List Char),
    natDigitsAux fuel n ds = natDigitsAux fuel n [] ++ ds := by
  induction fuel with
  | zero => intro n ds; simp [natDigitsAux]
  | succ fuel ih =>
    intro n ds
    by_cases hn : n < 10
    · simp [natDigitsAux, hn]
    · simp only [natDigitsAux, hn, if_false]
      rw [ih (n / 10) (digitChar10 (n % 10) :: ds),
        ih (n / 10) [digitChar10 (n % 10)]]
      simp

theorem natDigitsAux_extra {n : Nat} : ∀ {f1 f2 : Nat}, n < f1 → n < f2 →
    natDigitsAux f1 n [] = natDigitsAux f2 n [] := by
  induction n using Nat.strongRecOn with
  | ind n ih =>
    intro f1 f2 h1 h2
    match f1, f2 with
    | g1 + 1, g2 + 1 =>
      by_cases hn : n < 10
      · simp [natDigitsAux, hn]
      · simp only [natDigitsAux, hn, if_false]
        rw [natDigitsAux_acc g1, natDigitsAux_acc g2]
        have hd : n / 10 < n := Nat.div_lt_self (by omega) (by omega)
        rw [ih (n / 10) hd (show n / 10 < g1 by omega) (show n / 10 < g2 by omega)]

theorem parseDigits_aux (n : Nat) : ∀ (fuel : Nat), n < fuel →
    ∀ (rest : List Char) (acc : Nat),
    parseDigits (natDigitsAux fuel n [] ++ rest) acc =
      parseDigits rest (acc * 10 ^ (natDigitsAux fuel n []).length + n) := by
  induction n using Nat.strongRecOn with
  | ind n ih =>
    intro fuel hf rest acc
    match fuel with
    | g + 1 =>
      by_cases hn : n < 10
      · simp only [natDigitsAux, hn, if_true]
        simp [parseDigits, isDigitCh_digitChar10, digitChar10_toNat]
        congr 1
        omega
      · simp only [natDigitsAux, hn, if_false]
        rw [natDigitsAux_acc g]
        have hd : n / 10 < n := Nat.div_lt_self (by omega) (by omega)
        rw [List.append_assoc, ih (n / 10) hd g (by omega)]
        simp [parseDigits, isDigitCh_digitChar10, digitChar10_toNat]
        rw [Nat.pow_succ]
        congr 1
        rw [← Nat.mul_assoc]
        generalize acc * 10 ^ (natDigitsAux g (n / 10) []).length = M
        omega

theorem natDigits_head (n : Nat) : ∀ {fuel : Nat}, n < fuel →
    ∃ c cs, natDigitsAux fuel n [] = c :: cs ∧ isDigitCh c = true ∧
      (n ≠ 0 → c ≠ '0') := by
  induction n using Nat.strongRecOn with
  | ind n ih =>
    intro fuel hf
    match fuel with
    | g + 1 =>
      by_cases hn : n < 10
      · refine ⟨digitChar10 n, [], by simp [natDigitsAux, hn],
          isDigitCh_digitChar10 n, ?_⟩
        intro hne
        apply ne_of_toNat_ne
        rw [digitChar10_toNat]
        have : ('0').toNat = 48 := by decide
        omega
      · have hd : n / 10 < n := Nat.div_lt_self (by omega) (by omega)
        obtain ⟨c, cs, hcs, hdig, hz⟩ := ih (n / 10) hd (show n / 10 < g by omega)
        refine ⟨c, cs ++ [digitChar10 (n % 10)], ?_, hdig, fun _ => hz (by omega)⟩
        simp only [natDigitsAux, hn, if_false]
        rw [natDigitsAux_acc g, hcs]
        simp

/-- Condition on what follows a rendered value: the next character (if any)
must not extend a number token. -/
def afterOk : List Char → Prop
  | [] => True
  | c :: _ => numCont c = false

theorem parseDigits_stop {rest : List Char} (h : afterOk rest) (n : Nat) :
    parseDigits rest n = (n, rest) := by
  match rest with
  | [] => simp [parseDigits]
  | c :: r =>
    have hc : numCont c = false := h
    have : isDigitCh c = false := by
      by_contra hcon
      simp [numCont, eq_true_of_ne_false hcon] at hc
    simp [parseDigits, this]

theorem parseDigits_natDigits (n : Nat) {rest : List Char} (h : afterOk rest) :
    parseDigits (natDigits n ++ rest) 0 = (n, rest) := by
  rw [natDigits, parseDigits_aux n (n + 1) (by omega) rest 0]
  rw [parseDigits_stop h]
  simp

theorem parseNumTail_natDigits (n : Nat) {rest : List Char} (h : afterOk rest) :
    parseNumTail (natDigits n ++ rest) = some (n, rest) := by
  obtain ⟨c, cs, hcs, hdig, hz⟩ := natDigits_head n (show n < n + 1 by omega)
  have hnd : natDigits n = c :: cs := hcs
  have hparse : parseDigits (natDigits n ++ rest) 0 = (n, rest) :=
    parseDigits_natDigits n h
  by_cases hn0 : n = 0
  · subst hn0
    have h0 : natDigits 0 = ['0'] := by decide
    rw [h0]
    match rest with
    | [] => simp [parseNumTail]
    | d :: r =>
      have hc : numCont d = false := h
      simp [parseNumTail, hc]
  · rw [hnd] at hparse ⊢
    have hcne : ¬(c = '0') := hz hn0
    simp only [List.cons_append, parseNumTail, hcne, if_false, hdig, if_true]
    rw [show c :: (cs ++ rest) = (c :: cs) ++ rest from rfl, hparse]
    match rest with
    | [] => rfl
    | d :: r =>
      have hc : numCont d = false := h
      simp [hc]

theorem parseNumber_renderInt (n : Int) {rest : List Char} (h : afterOk rest) :
    parseNumber (renderInt n ++ rest) = some (n, rest) := by
  by_cases hneg : n < 0
  · simp only [renderInt, hneg, if_true, List.cons_append]
    have hstep : parseNumber ('-' :: (natDigits n.natAbs ++ rest))
        = (parseNumTail (natDigits n.natAbs ++ rest)).map
            (fun p => (-(p.1 : Int), p.2)) := by
      rw [parseNumber.eq_def]; rfl
    rw [hstep, parseNumTail_natDigits n.natAbs h]
    have habs : -((n.natAbs : Int)) = n := by
      rw [Int.natCast_natAbs, abs_of_neg hneg, neg_neg]
    rw [Option.map_some', habs]
  · simp only [renderInt, hneg, if_false]
    obtain ⟨c, cs, hcs, hdig, hz⟩ := natDigits_head n.natAbs
      (show n.natAbs < n.natAbs + 1 by omega)
    have hnd : natDigits n.natAbs = c :: cs := hcs
    have hcm : ¬(c = '-') := ne_of_digit hdig (by decide)
    rw [hnd, List.cons_append]
    have hstep : parseNumber (c :: (cs ++ rest))
        = (parseNumTail (c :: (cs ++ rest))).map
            (fun p => ((p.1 : Int), p.2)) := by
      rw [parseNumber.eq_def]
      simp [hcm]
    rw [hstep, show c :: (cs ++ rest) = natDigits n.natAbs ++ rest by
      rw [hnd]; rfl]
    rw [parseNumTail_natDigits n.natAbs h]
    have habs : ((n.natAbs : Int)) = n := Int.natAbs_of_nonneg (by omega)
    rw [Option.map_some', habs]

/- ---------------------------------------------------------------------
Supporting lemmas: string-escape round-trip.
--------------------------------------------------------------------- -/

theorem hexVal_hexDigitChar {m : Nat} (h : m < 16) :
    hexVal (hexDigitChar m) = some m := by
  interval_cases m <;> decide

theorem psb_close (r : List Char) : parseStringBody ('"' :: r) = some ([], r) := by
  rw [parseStringBody.eq_def]; rfl

theorem psb_escQ (r : List Char) :
    parseStringBody ('\\' :: '"' :: r)
      = (parseStringBody r).map (fun p => ('"' :: p.1, p.2)) := by
  rw [parseStringBody.eq_def]; rfl

theorem psb_escB (r : List Char) :
    parseStringBody ('\\' :: '\\' :: r)
      = (parseStringBody r).map (fun p => ('\\' :: p.1, p.2)) := by
  rw [parseStringBody.eq_def]; rfl

theorem psb_escN (r : List Char) :
    parseStringBody ('\\' :: 'n' :: r)
      = (parseStringBody r).map (fun p => ('\n' :: p.1, p.2)) := by
  rw [parseStringBody.eq_def]; rfl

theorem psb_escR (r : List Char) :
    parseStringBody ('\\' :: 'r' :: r)
      = (parseStringBody r).map (fun p => ('\r' :: p.1, p.2)) := by
  rw [parseStringBody.eq_def]; rfl

theorem psb_escT (r : List Char) :
    parseStringBody ('\\' :: 't' :: r)
      = (parseStringBody r).map (fun p => ('\t' :: p.1, p.2)) := by
  rw [parseStringBody.eq_def]; rfl

theorem psb_escU {x1 x2 x3 x4 : Char} {a b c d : Nat}
    (e1 : hexVal x1 = some a) (e2 : hexVal x2 = some b)
    (e3 : hexVal x3 = some c) (e4 : hexVal x4 = some d) (r : List Char) :
    parseStringBody ('\\' :: 'u' :: x1 :: x2 :: x3 :: x4 :: r)
      = (parseStringBody r).map
          (fun p => (charOfCode (((a * 16 + b) * 16 + c) * 16 + d) :: p.1, p.2)) := by
  rw [parseStringBody.eq_def]
  simp [e1, e2, e3, e4]

theorem psb_plain {c : Char} (h1 : ¬(c = '"')) (h2 : ¬(c = '\\'))
    (h3 : ¬(c.toNat < 32)) (r : List Char) :
    parseStringBody (c :: r)
      = (parseStringBody r).map (fun p => (c :: p.1, p.2)) := by
  rw [parseStringBody.eq_def]
  simp [h1, h2, h3]

theorem parseStringBody_escape (l : List Char) (rest : List Char) :
    parseStringBody (l.flatMap escapeChar ++ ('"' :: rest)) = some (l, rest) := by
  induction l with
  | nil => simp [psb_close]
  | cons c l ih =>
    rw [List.flatMap_cons, List.append_assoc]
    by_cases h1 : c = '"'
    · subst h1
      rw [show escapeChar '"' = ['\\', '"'] from rfl]
      simp [psb_escQ, ih]
    by_cases h2 : c = '\\'
    · subst h2
      rw [show escapeChar '\\' = ['\\', '\\'] from rfl]
      simp [psb_escB, ih]
    by_cases h3 : c = '\n'
    · subst h3
      rw [show escapeChar '\n' = ['\\', 'n'] from rfl]
      simp [psb_escN, ih]
    by_cases h4 : c = '\r'
    · subst h4
      rw [show escapeChar '\r' = ['\\', 'r'] from rfl]
      simp [psb_escR, ih]
    by_cases h5 : c = '\t'
    · subst h5
      rw [show escapeChar '\t' = ['\\', 't'] from rfl]
      simp [psb_escT, ih]
    by_cases h6 : c = '<'
    · subst h6
      rw [show escapeChar '<' = ['\\', 'u', '0', '0', '3', 'c'] from rfl]
      simp only [List.cons_append, List.nil_append]
      rw [psb_escU (show hexVal '0' = some 0 by decide)
        (show hexVal '0' = some 0 by decide) (show hexVal '3' = some 3 by decide)
        (show hexVal 'c' = some 12 by decide)]
      rw [show charOfCode (((0 * 16 + 0) * 16 + 3) * 16 + 12) = '<' by decide]
      rw [ih]
      rfl
    by_cases h7 : c = '>'
    · subst h7
      rw [show escapeChar '>' = ['\\', 'u', '0', '0', '3', 'e'] from rfl]
      simp only [List.cons_append, List.nil_append]
      rw [psb_escU (show hexVal '0' = some 0 by decide)
        (show hexVal '0' = some 0 by decide) (show hexVal '3' = some 3 by decide)
        (show hexVal 'e' = some 14 by decide)]
      rw [show charOfCode (((0 * 16 + 0) * 16 + 3) * 16 + 14) = '>' by decide]
      rw [ih]
      rfl
    by_cases h8 : c = '&'
    · subst h8
      rw [show escapeChar '&' = ['\\', 'u', '0', '0', '2', '6'] from rfl]
      simp only [List.cons_append, List.nil_append]
      rw [psb_escU (show hexVal '0' = some 0 by decide)
        (show hexVal '0' = some 0 by decide) (show hexVal '2' = some 2 by decide)
        (show hexVal '6' = some 6 by decide)]
      rw [show charOfCode (((0 * 16 + 0) * 16 + 2) * 16 + 6) = '&' by decide]
      rw [ih]
      rfl
    by_cases h9 : c.toNat < 32
    · have e1 : hexVal (hexDigitChar (c.toNat / 16)) = some (c.toNat / 16) :=
        hexVal_hexDigitChar (by omega)
      have e2 : hexVal (hexDigitChar (c.toNat % 16)) = some (c.toNat % 16) :=
        hexVal_hexDigitChar (Nat.mod_lt _ (by omega))
      rw [show escapeChar c = ['\\', 'u', '0', '0', hexDigitChar (c.toNat / 16),
          hexDigitChar (c.toNat % 16)] by
        simp [escapeChar, h1, h2, h3, h4, h5, h6, h7, h8, h9]]
      simp only [List.cons_append, List.nil_append]
      rw [psb_escU (show hexVal '0' = some 0 by decide)
        (show hexVal '0' = some 0 by decide) e1 e2]
      have hn : ((0 * 16 + 0) * 16 + c.toNat / 16) * 16 + c.toNat % 16
          = c.toNat := by omega
      rw [hn, charOfCode_toNat, ih]
      rfl
    by_cases h10 : c.toNat = 0x2028
    · rw [show escapeChar c = ['\\', 'u', '2', '0', '2', '8'] by
        simp [escapeChar, h1, h2, h3, h4, h5, h6, h7, h8, h9, h10]]
      simp only [List.cons_append, List.nil_append]
      rw [psb_escU (show hexVal '2' = some 2 by decide)
        (show hexVal '0' = some 0 by decide) (show hexVal '2' = some 2 by decide)
        (show hexVal '8' = some 8 by decide)]
      have hv : ((2 * 16 + 0) * 16 + 2) * 16 + 8 = c.toNat := by omega
      rw [hv, charOfCode_toNat, ih]
      rfl
    by_cases h11 : c.toNat = 0x2029
    · rw [show escapeChar c = ['\\', 'u', '2', '0', '2', '9'] by
        simp [escapeChar, h1, h2, h3, h4, h5, h6, h7, h8, h9, h10, h11]]
      simp only [List.cons_append, List.nil_append]
      rw [psb_escU (show hexVal '2' = some 2 by decide)
        (show hexVal '0' = some 0 by decide) (show hexVal '2' = some 2 by decide)
        (show hexVal '9' = some 9 by decide)]
      have hv : ((2 * 16 + 0) * 16 + 2) * 16 + 9 = c.toNat := by omega
      rw [hv, charOfCode_toNat, ih]
      rfl
    · rw [show escapeChar c = [c] by
        simp [escapeChar, h1, h2, h3, h4, h5, h6, h7, h8, h9, h10, h11]]
      rw [List.cons_append, List.nil_append, psb_plain h1 h2 h9, ih]
      rfl

/- ---------------------------------------------------------------------
Supporting lemmas: one-step unfoldings of the renderer and parser.
--------------------------------------------------------------------- -/

theorem rv_null : renderV .jnull = ['n', 'u', 'l', 'l'] := by
  rw [renderV.eq_def]

theorem rv_true : renderV (.jbool true) = ['t', 'r', 'u', 'e'] := by
  rw [renderV.eq_def]

theorem rv_false : renderV (.jbool false) = ['f', 'a', 'l', 's', 'e'] := by
  rw [renderV.eq_def]

theorem rv_num (n : Int) : renderV (.jnum n) = renderInt n := by
  rw [renderV.eq_def]

theorem rv_str (s : String) : renderV (.jstr s) = renderString s := by
  rw [renderV.eq_def]

theorem rv_arr (xs : List JVal) :
    renderV (.jarr xs) = '[' :: renderElems xs ++ [']'] := by
  rw [renderV.eq_def]

theorem re_nil : renderElems [] = [] := by
  rw [renderElems.eq_def]

theorem re_cons (x : JVal) (xs : List JVal) :
    renderElems (x :: xs) = renderV x ++ renderElemsTail xs := by
  rw [renderElems.eq_def]

theorem ret_nil : renderElemsTail [] = [] := by
  rw [renderElemsTail.eq_def]

theorem ret_cons (x : JVal) (xs : List JVal) :
    renderElemsTail (x :: xs) = ',' :: renderV x ++ renderElemsTail xs := by
  rw [renderElemsTail.eq_def]

theorem renderInt_head (n : Int) : ∃ c cs, renderInt n = c :: cs ∧
    (c = '-' ∨ isDigitCh c = true) ∧ isWsChar c = false ∧ ¬(c = ']') := by
  by_cases hneg : n < 0
  · exact ⟨'-', natDigits n.natAbs, by simp [renderInt, hneg], Or.inl rfl,
      by decide, by decide⟩
  · obtain ⟨c, cs, hcs, hdig, _⟩ := natDigits_head n.natAbs
      (show n.natAbs < n.natAbs + 1 by omega)
    refine ⟨c, cs, ?_, Or.inr hdig, isWsChar_of_digit hdig,
      ne_of_digit hdig (by decide)⟩
    simp only [renderInt, hneg, if_false, natDigits]
    exact hcs

theorem renderV_head (v : JVal) : ∃ c cs, renderV v = c :: cs ∧
    isWsChar c = false ∧ ¬(c = ']') := by
  cases v with
  | jnull => exact ⟨'n', _, rv_null, by decide, by decide⟩
  | jbool b =>
    cases b with
    | true => exact ⟨'t', _, rv_true, by decide, by decide⟩
    | false => exact ⟨'f', _, rv_false, by decide, by decide⟩
  | jnum n =>
    obtain ⟨c, cs, hcs, _, hws, hne⟩ := renderInt_head n
    exact ⟨c, cs, by rw [rv_num]; exact hcs, hws, hne⟩
  | jstr s =>
    exact ⟨'"', s.data.flatMap escapeChar ++ ['"'],
      by rw [rv_str]; simp [renderString], by decide, by decide⟩
  | jarr xs =>
    exact ⟨'[', renderElems xs ++ [']'], by rw [rv_arr]; simp,
      by decide, by decide⟩

theorem pv_quote (fuel : Nat) (r : List Char) :
    parseVal (fuel + 1) ('"' :: r)
      = (parseStringBody r).map (fun p => (JVal.jstr (String.mk p.1), p.2)) := by
  rw [parseVal.eq_def]
  simp +decide [skipWs]

theorem pv_lit_t (fuel : Nat) (r : List Char) :
    parseVal (fuel + 1) ('t' :: 'r' :: 'u' :: 'e' :: r)
      = some (.jbool true, r) := by
  rw [parseVal.eq_def]
  simp +decide [skipWs]

theorem pv_lit_f (fuel : Nat) (r : List Char) :
    parseVal (fuel + 1) ('f' :: 'a' :: 'l' :: 's' :: 'e' :: r)
      = some (.jbool false, r) := by
  rw [parseVal.eq_def]
  simp +decide [skipWs]

theorem pv_lit_n (fuel : Nat) (r : List Char) :
    parseVal (fuel + 1) ('n' :: 'u' :: 'l' :: 'l' :: r)
      = some (.jnull, r) := by
  rw [parseVal.eq_def]
  simp +decide [skipWs]

theorem pv_num {c : Char} (hc : c = '-' ∨ isDigitCh c = true) (fuel : Nat)
    (r : List Char) :
    parseVal (fuel + 1) (c :: r)
      = (parseNumber (c :: r)).map (fun p => (JVal.jnum p.1, p.2)) := by
  rcases hc with hc | hc
  · subst hc
    rw [parseVal.eq_def]
    simp +decide [skipWs]
  · have h1 : ¬(c = '"') := ne_of_digit hc (by decide)
    have h2 : ¬(c = '[') := ne_of_digit hc (by decide)
    have h3 : ¬(c = 't') := ne_of_digit hc (by decide)
    have h4 : ¬(c = 'f') := ne_of_digit hc (by decide)
    have h5 : ¬(c = 'n') := ne_of_digit hc (by decide)
    rw [parseVal.eq_def]
    simp +decide [skipWs, isWsChar_of_digit hc, h1, h2, h3, h4, h5, hc]

theorem pv_arr_empty (fuel : Nat) (r : List Char) :
    parseVal (fuel + 1) ('[' :: ']' :: r) = some (.jarr [], r) := by
  rw [parseVal.eq_def]
  simp +decide [skipWs]

theorem pv_arr {c2 : Char} (hne : ¬(c2 = ']')) (hws : isWsChar c2 = false)
    (fuel : Nat) (r2 : List Char) :
    parseVal (fuel + 1) ('[' :: c2 :: r2)
      = (parseElems fuel (c2 :: r2)).map (fun p => (JVal.jarr p.1, p.2)) := by
  rw [parseVal.eq_def]
  simp +decide [skipWs, hws, hne]

theorem pe_succ (fuel : Nat) (l : List Char) :
    parseElems (fuel + 1) l
      = (match parseVal fuel l with
        | none => none
        | some (v, r) =>
          match skipWs r with
          | [] => none
          | c :: r2 =>
            if c = ',' then (parseElems fuel r2).map (fun p => (v :: p.1, p.2))
            else if c = ']' then some ([v], r2)
            else none) := by
  rw [parseElems.eq_def]

/- ---------------------------------------------------------------------
Round-trip of the JSON value parser against the renderer.
--------------------------------------------------------------------- -/

theorem parse_render (fuel : Nat) :
    (∀ (v : JVal) (rest : List Char), 2 * (renderV v).length ≤ fuel →
      afterOk rest → parseVal fuel (renderV v ++ rest) = some (v, rest)) ∧
    (∀ (x : JVal) (xs : List JVal) (rest : List Char),
      2 * (renderElems (x :: xs)).length + 2 ≤ fuel →
      parseElems fuel (renderV x ++ (renderElemsTail xs ++ (']' :: rest)))
        = some (x :: xs, rest)) := by
  induction fuel with
  | zero =>
    constructor
    · intro v rest hf _
      obtain ⟨c, cs, hcs, _, _⟩ := renderV_head v
      rw [hcs] at hf
      simp at hf
    · intro x xs rest hf
      omega
  | succ fuel ih =>
    constructor
    · intro v rest hf hro
      cases v with
      | jnull =>
        rw [rv_null]
        simp only [List.cons_append, List.nil_append]
        exact pv_lit_n fuel rest
      | jbool b =>
        cases b with
        | true =>
          rw [rv_true]
          simp only [List.cons_append, List.nil_append]
          exact pv_lit_t fuel rest
        | false =>
          rw [rv_false]
          simp only [List.cons_append, List.nil_append]
          exact pv_lit_f fuel rest
      | jnum n =>
        rw [rv_num]
        obtain ⟨c, cs, hcs, hcd, _, _⟩ := renderInt_head n
        rw [hcs, List.cons_append, pv_num hcd, ← List.cons_append, ← hcs,
          parseNumber_renderInt n hro]
        rfl
      | jstr s =>
        rw [rv_str]
        simp only [renderString, List.cons_append, List.nil_append,
          List.append_assoc]
        rw [pv_quote, parseStringBody_escape]
        rfl
      | jarr xs =>
        cases xs with
        | nil =>
          rw [rv_arr, re_nil]
          simp only [List.nil_append, List.cons_append]
          exact pv_arr_empty fuel rest
        | cons x xs =>
          rw [rv_arr]
          rw [show ('[' :: renderElems (x :: xs) ++ [']']) ++ rest
            = '[' :: (renderElems (x :: xs) ++ (']' :: rest)) by simp]
          obtain ⟨c2, cs2, hcs2, hws2, hne2⟩ := renderV_head x
          rw [re_cons, hcs2]
          rw [show ((c2 :: cs2) ++ renderElemsTail xs) ++ (']' :: rest)
            = c2 :: (cs2 ++ (renderElemsTail xs ++ (']' :: rest))) by simp]
          rw [pv_arr hne2 hws2]
          have harith : 2 * (renderElems (x :: xs)).length + 2 ≤ fuel := by

            have hlen : (renderV (.jarr (x :: xs))).length
                = (renderElems (x :: xs)).length + 2 := by
              rw [rv_arr]; simp
            rw [hlen] at hf
            omega
          have hb := ih.2 x xs rest harith
          rw [hcs2] at hb
          simp only [List.cons_append] at hb
          rw [hb]
          rfl
    · intro x xs rest hf
      have hax : afterOk (renderElemsTail xs ++ (']' :: rest)) := by
        cases xs with
        | nil => rw [ret_nil]; exact (by decide : numCont ']' = false)
        | cons y ys =>
          rw [ret_cons]
          exact (by decide : numCont ',' = false)
      have hlx : 2 * (renderV x).length ≤ fuel := by
        rw [re_cons] at hf
        simp at hf
        omega
      rw [pe_succ, ih.1 x (renderElemsTail xs ++ (']' :: rest)) hlx hax]
      cases xs with
      | nil =>
        rw [ret_nil]
        simp only [List.nil_append]
        rw [skipWs_cons (show isWsChar ']' = false by decide)]
        simp
      | cons y ys =>
        rw [ret_cons]
        simp only [List.cons_append]
        rw [skipWs_cons (show isWsChar ',' = false by decide)]
        have harith2 : 2 * (renderElems (y :: ys)).length + 2 ≤ fuel := by
          rw [re_cons] at hf ⊢
          rw [ret_cons] at hf
          simp at hf ⊢
          omega
        have hb := ih.2 y ys rest harith2
        simp +decide [hb]

/- ---------------------------------------------------------------------
Round-trip of `jsonUnmarshalErrData` against `marshalErrData`.
--------------------------------------------------------------------- -/

theorem psb_key : ∀ (k : List Char),
    (∀ c ∈ k, ¬(c = '"') ∧ ¬(c = '\\') ∧ ¬(c.toNat < 32)) →
    ∀ r, parseStringBody (k ++ ('"' :: r)) = some (k, r) := by
  intro k
  induction k with
  | nil => intro _ r; rw [List.nil_append]; exact psb_close r
  | cons c k ih =>
    intro hk r
    obtain ⟨h1, h2, h3⟩ := hk c (by simp)
    rw [List.cons_append, psb_plain h1 h2 h3,
      ih (fun c hc => hk c (by simp [hc])) r]
    rfl

theorem pf_step (fuel fuel2 : Nat) (hf : fuel = fuel2 + 1) (k : List Char)
    (hk : ∀ c ∈ k, ¬(c = '"') ∧ ¬(c = '\\') ∧ ¬(c.toNat < 32)) (v : JVal)
    (hlen : 2 * (renderV v).length ≤ fuel2) (tail : List Char)
    (hao : afterOk tail) :
    parseFields fuel ('"' :: (k ++ ('"' :: (':' :: (renderV v ++ tail)))))
      = (match skipWs tail with
        | [] => none
        | c3 :: r4 =>
          if c3 = ',' then
            (parseFields fuel2 r4).map (fun p => ((String.mk k, v) :: p.1, p.2))
          else if c3 = '}' then some ([(String.mk k, v)], r4)
          else none) := by
  subst hf
  rw [parseFields.eq_def]
  simp +decide [skipWs, psb_key k hk, (parse_render fuel2).1 v tail hlen hao]

theorem decodeList_reason (l : List (List JVal)) :
    decodeList asReasonEntry (l.map JVal.jarr) = some l := by
  induction l with
  | nil => rfl
  | cons x xs ih => simp [decodeList, asReasonEntry, ih]

theorem decodeList_where (l : List String) :
    decodeList asWhereEntry (l.map JVal.jstr) = some l := by
  induction l with
  | nil => rfl
  | cons x xs ih => simp [decodeList, asWhereEntry, ih]

theorem decodeFields_marshal (code : String) (reason : List (List JVal))
    (where_ : List String) :
    decodeFields [("code", .jstr code), ("reason", .jarr (reason.map .jarr)),
      ("where", .jarr (where_.map .jstr))]
      = some ⟨code, reason, where_⟩ := by
  simp +decide [decodeFields, decodeFieldsAux, applyField, setCode, setReason,
    setWhere, decodeList_reason, decodeList_where]

theorem marshal_chars (code : String) (reason : List (List JVal))
    (where_ : List String) :
    marshalErrData ⟨code, reason, where_⟩
      = '{' :: ('"' :: 'c' :: 'o' :: 'd' :: 'e' :: '"' :: ':' ::
          (renderV (.jstr code)
            ++ (',' :: '"' :: 'r' :: 'e' :: 'a' :: 's' :: 'o' :: 'n' :: '"' :: ':' ::
              (renderV (.jarr (reason.map .jarr))
                ++ (',' :: '"' :: 'w' :: 'h' :: 'e' :: 'r' :: 'e' :: '"' :: ':' ::
                  (renderV (.jarr (where_.map .jstr)) ++ ['}'])))))) := by
  have k1 : "\"code\":".data = ['"', 'c', 'o', 'd', 'e', '"', ':'] := rfl
  have k2 : ",\"reason\":".data
      = [',', '"', 'r', 'e', 'a', 's', 'o', 'n', '"', ':'] := rfl
  have k3 : ",\"where\":".data
      = [',', '"', 'w', 'h', 'e', 'r', 'e', '"', ':'] := rfl
  simp [marshalErrData, k1, k2, k3]

theorem unmarshal_marshal (d : ErrData) :
    jsonUnmarshalErrData (errorText d) = some d := by
  obtain ⟨code, reason, where_⟩ := d
  have herr : (errorText ⟨code, reason, where_⟩).data
      = marshalErrData ⟨code, reason, where_⟩ := rfl
  have hm := marshal_chars code reason where_
  have hlen : (marshalErrData (⟨code, reason, where_⟩ : ErrData)).length
      = 28 + (renderV (.jstr code)).length
        + (renderV (.jarr (reason.map .jarr))).length
        + (renderV (.jarr (where_.map .jstr))).length := by
    rw [hm]
    simp [List.length_append]
    omega
  simp only [jsonUnmarshalErrData, herr]
  generalize hN : (marshalErrData (⟨code, reason, where_⟩ : ErrData)).length = N
  have hN28 : N = 28 + (renderV (.jstr code)).length
      + (renderV (.jarr (reason.map .jarr))).length
      + (renderV (.jarr (where_.map .jstr))).length := by
    rw [← hN, hlen]
  have hs1 := pf_step (2 * N + 4) (2 * N + 3) (by omega)
    ['c', 'o', 'd', 'e'] (by decide) (.jstr code) (by omega)
    (',' :: '"' :: 'r' :: 'e' :: 'a' :: 's' :: 'o' :: 'n' :: '"' :: ':' ::
      (renderV (.jarr (reason.map .jarr))
        ++ (',' :: '"' :: 'w' :: 'h' :: 'e' :: 'r' :: 'e' :: '"' :: ':' ::
          (renderV (.jarr (where_.map .jstr)) ++ ['}']))))
    (show numCont ',' = false by decide)
  have hs2 := pf_step (2 * N + 3) (2 * N + 2) (by omega)
    ['r', 'e', 'a', 's', 'o', 'n'] (by decide)
    (.jarr (reason.map .jarr)) (by omega)
    (',' :: '"' :: 'w' :: 'h' :: 'e' :: 'r' :: 'e' :: '"' :: ':' ::
      (renderV (.jarr (where_.map .jstr)) ++ ['}']))
    (show numCont ',' = false by decide)
  have hs3 := pf_step (2 * N + 2) (2 * N + 1) (by omega)
    ['w', 'h', 'e', 'r', 'e'] (by decide)
    (.jarr (where_.map .jstr)) (by omega) ['}']
    (show numCont '}' = false by decide)
  simp only [List.cons_append, List.nil_append] at hs1 hs2 hs3
  rw [hm]
  simp +decide [skipWs, hs1, hs2, hs3, decodeFields_marshal]

/- ---------------------------------------------------------------------
Operation-level lemmas.
--------------------------------------------------------------------- -/

theorem marshal_head (d : ErrData) : ∃ t, marshalErrData d = '{' :: t := by
  simp only [marshalErrData, List.cons_append]
  exact ⟨_, rfl⟩

theorem errorText_ne_empty (d : ErrData) : errorText d ≠ "" := by
  obtain ⟨t, ht⟩ := marshal_head d
  intro h
  have : (errorText d).data = [] := by rw [h]
  rw [show (errorText d).data = marshalErrData d from rfl, ht] at this
  exact List.cons_ne_nil _ _ this

theorem parseData_marshal (site : String) (d : ErrData) :
    parseData site (errorText d) = some d := by
  obtain ⟨t, ht⟩ := marshal_head d
  have hdata : (errorText d).data = '{' :: t := by
    rw [show (errorText d).data = marshalErrData d from rfl, ht]
  simp only [parseData, hdata]
  simp +decide [unmarshal_marshal d]

theorem Parse_marshal (h : Heap) (site : String) (d : ErrData) :
    Parse h site (errorText d) = (h ++ [d], some h.length) := by
  have hne : ¬((errorText d).length = 0) := by
    rw [show (errorText d).length = (marshalErrData d).length from rfl]
    obtain ⟨t, ht⟩ := marshal_head d
    rw [ht]
    simp
  simp only [Parse, hne, if_false]
  simp [parseH, parseData_marshal site d, alloc]

theorem getRec_set_self (h : Heap) (a : Nat) (d : ErrData) (ha : a < h.length) :
    getRec (setRec h a d) a = d := by
  simp [getRec, setRec, List.getElem?_set_self ha]

theorem getRec_set_ne (h : Heap) {a b : Nat} (hne : ¬(b = a)) (d : ErrData) :
    getRec (setRec h a d) b = getRec h b := by
  simp [getRec, setRec, List.getElem?_set_ne (fun e => hne e.symm)]

theorem getRec_appendRL_self (h : Heap) (a : Nat) (items : List JVal)
    (site : String) (ha : a < h.length) :
    getRec (appendRL h a items site) a
      = ⟨(getRec h a).code, (getRec h a).reason ++ [items],
        (getRec h a).where_ ++ [site]⟩ := by
  simp [appendRL, getRec_set_self _ _ _ ha]

theorem getRec_appendRL_ne (h : Heap) {a b : Nat} (hne : ¬(b = a))
    (items : List JVal) (site : String) :
    getRec (appendRL h a items site) b = getRec h b :=
  getRec_set_ne h hne _

theorem getRec_append_self (h : Heap) (d : ErrData) :
    getRec (h ++ [d]) h.length = d :=
  getRec_alloc h d

/- ---------------------------------------------------------------------
Claim theorems.
--------------------------------------------------------------------- -/

/-- Well-formed error value: a `*errImpl` pointer points at an allocated
record. -/
def wfErr (h : Heap) : ErrVal → Prop
  | some (.impl a) => a < h.length
  | _ => True

/-- C3: `construct(c)` (`New`) always succeeds and builds a record whose
`code` field is `c`, whose reason history is exactly the one synthetic
marker entry `[["new"]]`, and whose location history is exactly the one
captured call site. -/
theorem C3_construct (h : Heap) (site code : String) :
    (getRec (New h site code).1 (New h site code).2).code = code ∧
    (getRec (New h site code).1 (New h site code).2).reason
      = [[JVal.jstr "new"]] ∧
    (getRec (New h site code).1 (New h site code).2).where_ = [site] := by
  have hget : getRec (New h site code).1 (New h site code).2
      = mkNewData site code := getRec_alloc h (mkNewData site code)
  rw [hget]
  exact ⟨rfl, rfl, rfl⟩

/-- C4: serialization of any record is a non-empty string, and parsing it
back (both at the data level and through the public `Parse`, which allocates
a fresh record) recovers the record exactly: the `code`, the reason history
and the location history are all preserved. -/
theorem C4_roundtrip (h : Heap) (site : String) (d : ErrData) :
    ¬(errorText d = "") ∧
    parseData site (errorText d) = some d ∧
    Parse h site (errorText d) = (h ++ [d], some h.length) :=
  ⟨errorText_ne_empty d, parseData_marshal site d, Parse_marshal h site d⟩

/-- C10: the free-function form of `As` applied to a nil error value returns
nil immediately: the heap is untouched (nothing is appended) and no nil
record is dereferenced. -/
theorem C10_as_nil (h : Heap) (site : String) (items : List JVal) :
    As h site none items = (h, .retNil) := rfl

/-- C2 (failing input): `Equal` on two distinct non-nil foreign errors whose
message texts are `""` and `"x"` reaches `parse("").Code()` in `errEqual`;
`parse("")` returns a nil `*errImpl`, so `Code()` dereferences a nil record
instead of returning a boolean. -/
theorem C2_equal_nil_deref :
    Equal [] "site" (some (.foreign 0 "")) (some (.foreign 1 "x"))
      = .nilDeref := rfl

/-- C7 counterexample: the free-function `As` applied to a non-nil foreign
error value whose message text is empty does not produce a new record:
`ParseErr` yields the typed-nil `*errImpl` that `parse("")` returns, and the
append to its reason list dereferences nil. -/
theorem C7_counterexample :
    As [] "site" (some (.foreign 0 "")) [JVal.jstr "x"]
      = ([], .nilDeref) := rfl

/-- C8: evaluation of `caller` when `runtime.Caller` reports no frame and
`runtime.FuncForPC` finds no function: the sentinel strings are assigned to
`at` but then unconditionally overwritten by the final formatted string, so
the function returns `"(:0)"` — not one of the four sentinel strings. -/
theorem C8_caller_overwrites_sentinel :
    caller ⟨false, "", 0, false, ""⟩ = "(:0)" ∧
    ¬((("(:0)") : String) = "domain of caller is unknown") ∧
    ¬((("(:0)") : String) = "domain of call is unnamed") ∧
    ¬((("(:0)") : String) = "domain of file is unnamed") ∧
    ¬((("(:0)") : String) = "domain of func is unnamed") :=
  ⟨rfl, by decide, by decide, by decide, by decide⟩

/-- C9 counterexample: `ParseErr` on a non-nil foreign error whose message
text is empty returns the typed-nil `*errImpl` pointer of `parse("")`
(`some none` in the model), not a brand-new record. -/
theorem C9_counterexample :
    ParseErr [] "site" (some (.foreign 0 "")) = ([], some none) := rfl

theorem data_of_ne_empty {src : String} (h : ¬(src = "")) :
    ∃ c cs, src.data = c :: cs := by
  cases hd : src.data with
  | nil =>
    exfalso
    apply h
    have h1 : String.mk src.data = src := rfl
    rw [hd] at h1
    exact h1.symm
  | cons c cs => exact ⟨c, cs, rfl⟩

theorem parseData_of_ne_empty {src : String} (h : ¬(src = ""))
    (site : String) : ∃ d, parseData site src = some d := by
  obtain ⟨c, cs, hd⟩ := data_of_ne_empty h
  simp only [parseData, hd]
  by_cases hc : c = '{'
  · simp only [hc]
    cases hj : jsonUnmarshalErrData src with
    | none => exact ⟨mkNewData site src, by simp⟩
    | some d => exact ⟨d, by simp⟩
  · exact ⟨mkNewData site src, by simp [hc]⟩

/-- C6: case analysis of the text parser: the empty string yields nil; a
non-empty string whose first character is not `{` yields the same record
data as `construct(src)`; a string starting with `{` that decodes as the
`{code, reason, where}` JSON shape yields the decoded fields verbatim, with
no marker or location entry added; and a string starting with `{` that fails
to decode falls back to the `construct(src)` data. -/
theorem C6_parse_cases (h : Heap) (site src : String) :
    (src = "" → Parse h site src = (h, none)) ∧
    (∀ c cs, src.data = c :: cs → ¬(c = '{') →
      parseData site src = some (mkNewData site src)) ∧
    (∀ c cs d, src.data = c :: cs → c = '{' →
      jsonUnmarshalErrData src = some d → parseData site src = some d) ∧
    (∀ c cs, src.data = c :: cs → c = '{' →
      jsonUnmarshalErrData src = none →
      parseData site src = some (mkNewData site src)) := by
  refine ⟨?_, ?_, ?_, ?_⟩
  · intro he
    subst he
    rfl
  · intro c cs hd hc
    simp [parseData, hd, hc]
  · intro c cs d hd hc hj
    simp [parseData, hd, hc, hj]
  · intro c cs hd hc hj
    simp [parseData, hd, hc, hj]

/-- Witness for C6 at concrete inputs: the empty string, an opaque code, a
decodable JSON object, and a malformed string starting with `{`. -/
theorem C6_witness :
    Parse [] "s" "" = ([], none) ∧
    parseData "s" "abc" = some (mkNewData "s" "abc") ∧
    parseData "s" (String.mk ['{', '}']) = some zeroErrData ∧
    parseData "s" (String.mk ['{', 'x'])
      = some (mkNewData "s" (String.mk ['{', 'x'])) :=
  ⟨(C6_parse_cases [] "s" "").1 rfl,
    (C6_parse_cases [] "s" "abc").2.1 'a' ['b', 'c'] rfl (by decide),
    (C6_parse_cases [] "s" (String.mk ['{', '}'])).2.2.1 '{' ['}'] zeroErrData
      rfl rfl rfl,
    (C6_parse_cases [] "s" (String.mk ['{', 'x'])).2.2.2 '{' ['x'] rfl rfl rfl⟩

/-- Well-formed JSON text of the `{code, reason, where}` shape whose
`reason` and `where` arrays have different lengths. -/
def mismatchedJson : String :=
  String.mk ('{' :: "\"code\":\"x\",\"reason\":[],\"where\":[\"w\"]".data ++ ['}'])

/-- C5 counterexample: `parse` accepts a well-formed JSON text of the
`{code, reason, where}` shape whose `reason` and `where` arrays have
different lengths, and returns a record violating
`len(reasons) == len(locations)` (0 reasons, 1 location). -/
theorem C5_counterexample :
    parseData "site" mismatchedJson = some ⟨"x", [], ["w"]⟩ ∧
    ¬((⟨"x", [], ["w"]⟩ : ErrData).reason.length
      = (⟨"x", [], ["w"]⟩ : ErrData).where_.length) :=
  ⟨rfl, by decide⟩

/-- C5 (amended): the invariant `len(reasons) == len(locations)` holds for
every record built by `construct`, is preserved by the annotate operation on
an allocated record, and is preserved by `parse` except through a decoded
JSON object whose own `reason` and `where` arrays differ in length: if every
successful decode of `src` satisfies the invariant, the parsed record does
too (the `construct` fallbacks always do). -/
theorem C5_invariant (h : Heap) (site src code : String) (items : List JVal)
    (a : Nat) (d : ErrData) :
    ((mkNewData site code).reason.length
      = (mkNewData site code).where_.length) ∧
    (a < h.length →
      (getRec h a).reason.length = (getRec h a).where_.length →
      (getRec (methodAs h a items site).1 a).reason.length
        = (getRec (methodAs h a items site).1 a).where_.length) ∧
    (parseData site src = some d →
      (∀ d2, jsonUnmarshalErrData src = some d2 →
        d2.reason.length = d2.where_.length) →
      d.reason.length = d.where_.length) := by
  refine ⟨rfl, ?_, ?_⟩
  · intro ha hinv
    have hget := getRec_appendRL_self h a items site ha
    simp only [methodAs, hget]
    simp [hinv]
  · intro hp hdec
    rcases hsrc : src.data with _ | ⟨c, cs⟩
    · simp [parseData, hsrc] at hp
    · simp only [parseData, hsrc] at hp
      by_cases hc : c = '{'
      · cases hj : jsonUnmarshalErrData src with
        | none =>
          simp [hc, hj] at hp
          rw [← hp]
          rfl
        | some d2 =>
          simp [hc, hj] at hp
          rw [← hp]
          exact hdec d2 hj
      · simp [hc] at hp
        rw [← hp]
        rfl

/-- Witness for C5 at concrete inputs: a freshly constructed record, one
annotate step on it, and a parse of an opaque code. -/
theorem C5_witness :
    (mkNewData "s" "c").reason.length = (mkNewData "s" "c").where_.length ∧
    (getRec (methodAs [mkNewData "s" "c"] 0 [JVal.jnum 1] "t").1 0).reason.length
      = (getRec (methodAs [mkNewData "s" "c"] 0 [JVal.jnum 1] "t").1 0).where_.length ∧
    (mkNewData "s" "plain").reason.length
      = (mkNewData "s" "plain").where_.length := by
  refine ⟨(C5_invariant [] "s" "x" "c" [] 0 zeroErrData).1, ?_, ?_⟩
  · exact (C5_invariant [mkNewData "s" "c"] "t" "x" "c" [JVal.jnum 1] 0
      zeroErrData).2.1 (by decide) (by decide)
  · exact (C5_invariant [] "s" "plain" "c" [] 0 (mkNewData "s" "plain")).2.2
      rfl (fun d2 hd2 => by
        rw [show jsonUnmarshalErrData "plain" = none from rfl] at hd2
        exact absurd hd2 (by simp))

/-- C9 (amended): `ParseErr` returns nil on nil input; returns the identical
pointer with the heap untouched when the input is already a record of this
package (zero-copy, so later mutations through either view alias); and
otherwise returns the result of the text parser on the input's message text:
a brand-new record at a fresh address for a non-empty message, and the
typed-nil record for an empty message. -/
theorem C9_normalize (h : Heap) (site : String) :
    ParseErr h site none = (h, none) ∧
    (∀ a, ParseErr h site (some (.impl a)) = (h, some (some a))) ∧
    (∀ id msg, ¬(msg = "") → ∃ d, parseData site msg = some d ∧
      ParseErr h site (some (.foreign id msg))
        = (h ++ [d], some (some h.length))) ∧
    (∀ id, ParseErr h site (some (.foreign id "")) = (h, some none)) := by
  refine ⟨rfl, fun a => rfl, ?_, fun id => rfl⟩
  intro id msg hmsg
  obtain ⟨d, hd⟩ := parseData_of_ne_empty hmsg site
  exact ⟨d, hd, by simp [ParseErr, parseH, hd, alloc]⟩

/-- Witness for C9 at concrete inputs: nil input, a record input (identity),
and a foreign error with non-empty message text. -/
theorem C9_witness :
    ParseErr [] "s" (some (.foreign 3 "hello"))
      = ([mkNewData "s" "hello"], some (some 0)) ∧
    ParseErr [⟨"c", [], []⟩] "s" (some (.impl 0))
      = ([⟨"c", [], []⟩], some (some 0)) ∧
    ParseErr [] "s" none = ([], none) := by
  obtain ⟨d, hd, he⟩ := (C9_normalize [] "s").2.2.1 3 "hello" (by decide)
  have hd2 : d = mkNewData "s" "hello" := by
    have h0 : parseData "s" "hello" = some (mkNewData "s" "hello") := rfl
    rw [h0] at hd
    exact (Option.some.inj hd).symm
  rw [hd2] at he
  exact ⟨by simpa using he, (C9_normalize [⟨"c", [], []⟩] "s").2.1 0,
    (C9_normalize [] "s").1⟩

/-- C7 (amended): the method form of `As` appends exactly one reason entry
and one location entry per call, returns the identical pointer, and mutates
no other record; the free-function form applied to a foreign error value
with non-empty message text allocates a brand-new record at a fresh address
(it never mutates the foreign value or any existing record); applied to a
foreign error with empty message text it dereferences a nil record instead
(`C7_counterexample`). -/
theorem C7_annotate (h : Heap) (site : String) (items : List JVal) :
    (∀ a, a < h.length →
      (methodAs h a items site).2 = a ∧
      (getRec (methodAs h a items site).1 a).reason.length
        = (getRec h a).reason.length + 1 ∧
      (getRec (methodAs h a items site).1 a).where_.length
        = (getRec h a).where_.length + 1 ∧
      ∀ b, ¬(b = a) → getRec (methodAs h a items site).1 b = getRec h b) ∧
    (∀ id msg, ¬(msg = "") → ∃ d, parseData site msg = some d ∧
      As h site (some (.foreign id msg)) items
        = (h ++ [⟨d.code, d.reason ++ [items], d.where_ ++ [site]⟩],
          .ret h.length)) := by
  constructor
  · intro a ha
    have hget := getRec_appendRL_self h a items site ha
    refine ⟨rfl, ?_, ?_, ?_⟩
    · simp [methodAs, hget]
    · simp [methodAs, hget]
    · intro b hb
      simp [methodAs, getRec_appendRL_ne h hb items site]
  · intro id msg hmsg
    obtain ⟨d, hd⟩ := parseData_of_ne_empty hmsg site
    refine ⟨d, hd, ?_⟩
    simp only [As, ParseErr, parseH, hd]
    have hg := getRec_append_self h d
    simp [appendRL, hg, setRec,
      List.set_append_right h.length _ (Nat.le_refl h.length), alloc]

/-- Witness for C7 at concrete inputs: one annotate step on an allocated
record, and the free-function form on a foreign error with non-empty
message. -/
theorem C7_witness :
    (methodAs [mkNewData "s" "c"] 0 [JVal.jnum 1] "t").2 = 0 ∧
    (getRec (methodAs [mkNewData "s" "c"] 0 [JVal.jnum 1] "t").1 0).reason.length
      = 2 ∧
    (getRec (methodAs [mkNewData "s" "c"] 0 [JVal.jnum 1] "t").1 0).where_.length
      = 2 ∧
    As [] "s" (some (.foreign 3 "boom")) [JVal.jnum 1]
      = ([⟨"boom", [[JVal.jstr "new"], [JVal.jnum 1]], ["s", "s"]⟩],
        .ret 0) := by
  obtain ⟨hret, hr, hw, _⟩ :=
    (C7_annotate [mkNewData "s" "c"] "t" [JVal.jnum 1]).1 0 (by decide)
  obtain ⟨d, hd, he⟩ := (C7_annotate [] "s" [JVal.jnum 1]).2 3 "boom" (by decide)
  have hd2 : d = mkNewData "s" "boom" := by
    have h0 : parseData "s" "boom" = some (mkNewData "s" "boom") := rfl
    rw [h0] at hd
    exact (Option.some.inj hd).symm
  rw [hd2] at he
  refine ⟨hret, by rw [hr]; rfl, by rw [hw]; rfl, by simpa using he⟩

/-- C1: `equals` returns true on identical references (including two nil
interfaces); false when exactly one side is nil; and otherwise, whenever
normalizing both sides through `ParseErr` yields records, exactly the string
comparison of those records' `code` fields — the message-text shortcut in
`errEqual` never changes this result, so equality never depends on
reason/location history or on raw message text beyond what normalization
yields. -/
theorem C1_equal_spec (h : Heap) (site : String) (e1 e2 : ErrVal)
    (w1 : wfErr h e1) (w2 : wfErr h e2) :
    (e1 = e2 → Equal h site e1 e2 = .res true) ∧
    (e1 = none → ¬(e2 = none) → Equal h site e1 e2 = .res false) ∧
    (¬(e1 = none) → e2 = none → Equal h site e1 e2 = .res false) ∧
    (∀ a1 a2, ¬(e1 = e2) →
      (ParseErr h site e1).2 = some (some a1) →
      (ParseErr (ParseErr h site e1).1 site e2).2 = some (some a2) →
      Equal h site e1 e2
        = .res ((getRec (ParseErr (ParseErr h site e1).1 site e2).1 a1).code
            == (getRec (ParseErr (ParseErr h site e1).1 site e2).1 a2).code)) := by
  refine ⟨?_, ?_, ?_, ?_⟩
  · intro he
    subst he
    simp [Equal, errEqual]
  · intro h1 h2
    subst h1
    rcases e2 with _ | g2
    · exact absurd rfl h2
    · simp [Equal, errEqual]
  · intro h1 h2
    subst h2
    rcases e1 with _ | g1
    · exact absurd rfl h1
    · simp [Equal, errEqual]
  · intro a1 a2 hne hp1 hp2
    rcases e1 with _ | g1
    · rw [show ParseErr h site none = (h, none) from rfl] at hp1
      exact absurd hp1 (by simp)
    rcases e2 with _ | g2
    · rw [show ParseErr (ParseErr h site (some g1)).1 site none
        = ((ParseErr h site (some g1)).1, none) from rfl] at hp2
      exact absurd hp2 (by simp)
    rcases g1 with a | ⟨id1, m1⟩ <;> rcases g2 with b | ⟨id2, m2⟩
    · -- record vs record
      have e1eq : ParseErr h site (some (.impl a)) = (h, some (some a)) := rfl
      have e2eq : ParseErr h site (some (.impl b)) = (h, some (some b)) := rfl
      rw [e1eq] at hp1 hp2 ⊢
      rw [e2eq] at hp2 ⊢
      have ha1 : a1 = a := by simpa using hp1.symm
      have ha2 : a2 = b := by simpa using hp2.symm
      subst ha1
      subst ha2
      simp [Equal, errEqual, hne]
    · -- record vs foreign
      have e1eq : ParseErr h site (some (.impl a)) = (h, some (some a)) := rfl
      rw [e1eq] at hp1 hp2 ⊢
      have ha1 : a1 = a := by simpa using hp1.symm
      subst ha1
      cases hpd : parseData site m2 with
      | none =>
        rw [show ParseErr h site (some (.foreign id2 m2)) = (h, some none)
          from by simp [ParseErr, parseH, hpd]] at hp2
        exact absurd hp2 (by simp)
      | some d2 =>
        have hPE : ParseErr h site (some (.foreign id2 m2))
            = (h ++ [d2], some (some h.length)) := by
          simp [ParseErr, parseH, hpd, alloc]
        rw [hPE] at hp2 ⊢
        have ha2 : a2 = h.length := by simpa using hp2.symm
        subst ha2
        have hga : getRec (h ++ [d2]) a1 = getRec h a1 :=
          getRec_append_lt h d2 w1
        have hgb : getRec (h ++ [d2]) h.length = d2 := getRec_append_self h d2
        rw [hga, hgb]
        by_cases hm : errorText (getRec h a1) = m2
        · have hsame : parseData site m2 = some (getRec h a1) := by
            rw [← hm]
            exact parseData_marshal site _
          rw [hpd] at hsame
          have hd2 : d2 = getRec h a1 := Option.some.inj hsame
          subst hd2
          simp [Equal, errEqual, hne, msgOf, hm]
        · simp [Equal, errEqual, hne, msgOf, hm, hpd,
            parseData_marshal site (getRec h a1)]
    · -- foreign vs record
      cases hpd : parseData site m1 with
      | none =>
        rw [show ParseErr h site (some (.foreign id1 m1)) = (h, some none)
          from by simp [ParseErr, parseH, hpd]] at hp1
        exact absurd hp1 (by simp)
      | some d1 =>
        have hPE1 : ParseErr h site (some (.foreign id1 m1))
            = (h ++ [d1], some (some h.length)) := by
          simp [ParseErr, parseH, hpd, alloc]
        rw [hPE1] at hp1 hp2 ⊢
        have ha1 : a1 = h.length := by simpa using hp1.symm
        subst ha1
        have e2eq : ParseErr (h ++ [d1]) site (some (.impl b))
            = (h ++ [d1], some (some b)) := rfl
        rw [e2eq] at hp2 ⊢
        have ha2 : a2 = b := by simpa using hp2.symm
        subst ha2
        have hga : getRec (h ++ [d1]) h.length = d1 := getRec_append_self h d1
        have hgb : getRec (h ++ [d1]) a2 = getRec h a2 :=
          getRec_append_lt h d1 w2
        rw [hga, hgb]
        by_cases hm : m1 = errorText (getRec h a2)
        · have hsame : parseData site m1 = some (getRec h a2) := by
            rw [hm]
            exact parseData_marshal site _
          rw [hpd] at hsame
          have hd1 : d1 = getRec h a2 := Option.some.inj hsame
          subst hd1
          simp [Equal, errEqual, hne, msgOf, hm]
        · simp [Equal, errEqual, hne, msgOf, hm, hpd,
            parseData_marshal site (getRec h a2)]
    · -- foreign vs foreign
      cases hpd1 : parseData site m1 with
      | none =>
        rw [show ParseErr h site (some (.foreign id1 m1)) = (h, some none)
          from by simp [ParseErr, parseH, hpd1]] at hp1
        exact absurd hp1 (by simp)
      | some d1 =>
        have hPE1 : ParseErr h site (some (.foreign id1 m1))
            = (h ++ [d1], some (some h.length)) := by
          simp [ParseErr, parseH, hpd1, alloc]
        rw [hPE1] at hp1 hp2 ⊢
        have ha1 : a1 = h.length := by simpa using hp1.symm
        subst ha1
        cases hpd2 : parseData site m2 with
        | none =>
          rw [show ParseErr (h ++ [d1]) site (some (.foreign id2 m2))
              = (h ++ [d1], some none)
            from by simp [ParseErr, parseH, hpd2]] at hp2
          exact absurd hp2 (by simp)
        | some d2 =>
          have hPE2 : ParseErr (h ++ [d1]) site (some (.foreign id2 m2))
              = ((h ++ [d1]) ++ [d2], some (some (h ++ [d1]).length)) := by
            simp [ParseErr, parseH, hpd2, alloc]
          rw [hPE2] at hp2 ⊢
          have ha2 : a2 = (h ++ [d1]).length := by simpa using hp2.symm
          subst ha2
          have hga : getRec ((h ++ [d1]) ++ [d2]) h.length
              = getRec (h ++ [d1]) h.length :=
            getRec_append_lt (h ++ [d1]) d2 (by simp)
          have hga2 : getRec (h ++ [d1]) h.length = d1 := getRec_append_self h d1
          have hgb : getRec ((h ++ [d1]) ++ [d2]) (h ++ [d1]).length = d2 :=
            getRec_append_self (h ++ [d1]) d2
          rw [hga, hga2, hgb]
          by_cases hm : m1 = m2
          · subst hm
            rw [hpd1] at hpd2
            have hd : d1 = d2 := Option.some.inj hpd2
            subst hd
            simp [Equal, errEqual, hne, msgOf]
          · simp [Equal, errEqual, hne, msgOf, hm, hpd1, hpd2]

/-- Witness for C1 at concrete inputs: the identity case, a nil/non-nil
pair, and the normalize-and-compare case for two foreign errors with
different codes. -/
theorem C1_witness :
    Equal [] "s" (some (.foreign 0 "a")) (some (.foreign 0 "a")) = .res true ∧
    Equal [] "s" none (some (.foreign 0 "a")) = .res false ∧
    Equal [] "s" (some (.foreign 0 "a")) (some (.foreign 1 "b"))
      = .res false := by
  refine ⟨(C1_equal_spec [] "s" (some (.foreign 0 "a")) (some (.foreign 0 "a"))
      trivial trivial).1 rfl,
    (C1_equal_spec [] "s" none (some (.foreign 0 "a")) trivial trivial).2.1
      rfl (by simp), ?_⟩
  have h4 := (C1_equal_spec [] "s" (some (.foreign 0 "a"))
    (some (.foreign 1 "b")) trivial trivial).2.2.2 0 1 (by simp)
    (by decide) (by decide)
  rw [h4]
  rfl

end Errs
